import Mathlib

/-!
Verification development for the 25ICN_NewsReport repository.

Shallow embedding of the two core algorithms:
* `src/src/parser/table_parser.py` — HTML table grid normalization
  (`parse_html_table` / `normalize_rows` and the colspan/rowspan attribute
  parsing of lines 50-51).
* `src/incheon_airport_crawler.py` — body-structure classification
  (`parse_body_structure` and its inner `split_sentences`).

Machine integers of the source are Python arbitrary-precision ints, modelled
as `Nat`/`Int`.  Python's `re`-based string operations are modelled over
`List Char`; `\d` and `\s` are modelled as ASCII `Char.isDigit` /
`Char.isWhitespace` (the repository's inputs use ASCII digits and whitespace).
Fallible code (Python `int()` raising `ValueError`) is modelled with `Except`.
-/

/-! ## Generic string helpers shared by both modules -/

/-- Right-strip: drop trailing whitespace characters
(the right half of Python `str.strip()`). -/
def dropTrailing : List Char → List Char
  | [] => []
  | c :: rest =>
    match dropTrailing rest with
    | [] => if c.isWhitespace then [] else [c]
    | r => c :: r

/-- Python `str.strip()`: drop leading and trailing whitespace. -/
def stripChars (l : List Char) : List Char :=
  dropTrailing (l.dropWhile Char.isWhitespace)

/-- `l` starts with the pattern `p`. -/
def listStartsWith : List Char → List Char → Bool
  | _, [] => true
  | [], _ :: _ => false
  | c :: cs, p :: ps => c = p && listStartsWith cs ps

/-- Python `s.replace(pat, "")` for a non-empty pattern: remove all
occurrences of `pat`, scanning left to right (non-overlapping).  The `Nat`
argument is fuel (each step consumes at least one character, so `l.length`
fuel always suffices); it only makes the scanning loop structurally
recursive. -/
def removeOccAux (pat : List Char) : List Char → Nat → List Char
  | l, 0 => l
  | [], _ + 1 => []
  | c :: rest, fuel + 1 =>
    if pat ≠ [] ∧ listStartsWith (c :: rest) pat then
      removeOccAux pat (List.drop (pat.length - 1) rest) fuel
    else
      c :: removeOccAux pat rest fuel

def removeOcc (pat : List Char) (l : List Char) : List Char :=
  removeOccAux pat l l.length

/-- Python `pat in s` substring test, over characters. -/
def containsSubChars (pat : List Char) : List Char → Bool
  | [] => listStartsWith [] pat
  | c :: rest => listStartsWith (c :: rest) pat || containsSubChars pat rest

/-- Python `s.lower()` (ASCII letters, which is all the style/attribute
markup the classifier inspects). -/
def lowerStr (s : String) : String := (s.toList.map Char.toLower).asString

/-- Python `re.sub(r'\s+', ' ', text)`: collapse runs of whitespace into a
single space.  The Boolean tracks whether the previous character was
whitespace (i.e. we are inside a run). -/
def collapseWsAux : Bool → List Char → List Char
  | _, [] => []
  | prevWs, c :: rest =>
    if c.isWhitespace then
      if prevWs then collapseWsAux true rest
      else ' ' :: collapseWsAux true rest
    else c :: collapseWsAux false rest

def collapseWs (l : List Char) : List Char := collapseWsAux false l

/-! ## Table parser embedding (`src/src/parser/table_parser.py`)

A `Cell` is one `<th>`/`<td>` element after content extraction
(`extract_cell_content`) and after the spans were parsed by lines 50-51.
`parse_html_table` receives the table already decomposed into `<tr>` lists of
cells, which is what BeautifulSoup's `find_all` hands the Python code. -/

structure Cell where
  content : String
  colspan : Nat
  rowspan : Nat
deriving Repr, DecidableEq

abbrev Grid := List (List String)

/-- Read position `(r, c)` of a grid; positions outside the materialised
lists read as `""`, the same value the Python code pads with. -/
def getPos (g : Grid) (r c : Nat) : String := (g.getD r []).getD c ""

/-- `while len(grid) <= row_index: grid.append([])` (lines 33-34, 63-64). -/
def ensureRows (g : Grid) (n : Nat) : Grid :=
  g ++ List.replicate (n + 1 - g.length) []

/-- `if len(row) < n: row.extend([""] * (n - len(row)))` (lines 57-58, 66-67). -/
def extendRow (row : List String) (n : Nat) : List String :=
  row ++ List.replicate (n - row.length) ""

/-- `next_free_col` (lines 39-43): first column `≥ col` of the current row
that is out of range or still holds `""`.  The `Nat` fuel only makes the
`while` loop structurally recursive; `row.length` fuel always suffices
because the loop stops at `col ≥ row.length`. -/
def nextFreeColAux (row : List String) : Nat → Nat → Nat
  | col, 0 => col
  | col, fuel + 1 =>
    if h : col < row.length then
      if row.get ⟨col, h⟩ ≠ "" then nextFreeColAux row (col + 1) fuel else col
    else col

def nextFreeCol (row : List String) (col : Nat) : Nat :=
  nextFreeColAux row col row.length

/-- Lines 69-71: `for c in range(start, start+n): if row[c] == "": row[c] = content`. -/
def fillRange (content : String) : List String → Nat → Nat → List String
  | row, _, 0 => row
  | row, start, n + 1 =>
    fillRange content
      (if row.getD start "" = "" then row.set start content else row)
      (start + 1) n

/-- One iteration of the `for r_offset in range(rowspan)` loop body
(lines 61-71): ensure the target row exists, pad it out to `ci + cs`,
then fill the still-empty positions of `[ci, ci+cs)` with `content`. -/
def placeRowUpdate (g : Grid) (tr ci cs : Nat) (content : String) : Grid :=
  let g1 := ensureRows g tr
  let row := g1.getD tr []
  g1.set tr (fillRange content (extendRow row (ci + cs)) ci cs)

/-- The whole `for r_offset in range(rowspan)` loop: apply `placeRowUpdate`
to rows `ri, ri+1, …, ri+n-1`. -/
def placeRows (ri ci cs : Nat) (content : String) : Grid → Nat → Grid
  | g, 0 => g
  | g, n + 1 => placeRowUpdate (placeRows ri ci cs content g n) (ri + n) ci cs content

/-- Placing one cell (lines 56-71): pre-extend the current row to
`ci + colspan` (lines 57-58), then run the rowspan loop. -/
def placeCellFull (g : Grid) (ri ci : Nat) (cell : Cell) : Grid :=
  let g1 := g.set ri (extendRow (g.getD ri []) (ci + cell.colspan))
  placeRows ri ci cell.colspan cell.content g1 cell.rowspan

/-- The `for cell in cells` loop (lines 48-74): advance the cursor to the
next free column, place the cell, move the cursor past its colspan. -/
def placeCells (rowIndex : Nat) : Grid → List Cell → Nat → Grid
  | g, [], _ => g
  | g, cell :: rest, colIndex =>
    let ci := nextFreeCol (g.getD rowIndex []) colIndex
    let g1 := placeCellFull g rowIndex ci cell
    placeCells rowIndex g1 rest (ci + cell.colspan)

/-- The `for row_index, tr in enumerate(tr_elements)` loop (lines 31-74). -/
def normRowsAux : Grid → Nat → List (List Cell) → Grid
  | g, _, [] => g
  | g, rowIndex, tr :: rest =>
    let g1 := ensureRows g rowIndex
    let start := nextFreeCol (g1.getD rowIndex []) 0
    let g2 := placeCells rowIndex g1 tr start
    normRowsAux g2 (rowIndex + 1) rest

/-- `normalize_rows` (lines 29-76). -/
def normalize_rows (trs : List (List Cell)) : Grid := normRowsAux [] 0 trs

/-- A `<table>` element as the Python code consumes it: the `<tr>` rows of a
`<thead>` when one is present, and the body `<tr>` rows (the `<tbody>` rows
when a `<tbody>` exists, otherwise all non-`<thead>` rows; with no `<thead>`
at all, every row of the table). -/
structure HtmlTable where
  thead : Option (List (List Cell))
  bodyTrs : List (List Cell)
deriving Repr, DecidableEq

/-- `parse_html_table` (lines 78-104), returning `(header, rows)`. -/
def parse_html_table (t : HtmlTable) : List String × List (List String) :=
  match t.thead with
  | some theadTrs =>
    let headerGrid := normalize_rows theadTrs
    let header := headerGrid.headD []
    let rows := (if headerGrid.length > 1 then headerGrid.tail else []) ++
      normalize_rows t.bodyTrs
    (header, rows)
  | none =>
    let grid := normalize_rows t.bodyTrs
    (grid.headD [], grid.tail)

/-- All rows (and the header) of a parse result have the same length. -/
def isRect (p : List String × List (List String)) : Bool :=
  p.2.all (fun r => r.length = p.1.length)

/-! ### Span attribute parsing (lines 50-51)

`int(cell.get('colspan', 1) or 1)`: an absent attribute or an empty string
yields `1`; otherwise Python's `int()` is applied to the raw attribute string
and raises `ValueError` on non-numeric input. -/

/-- Python `int(s)` on a string: strip whitespace, optional sign, then a
non-empty ASCII digit run; anything else raises (`none`). -/
def pyInt (s : String) : Option Int :=
  let l := stripChars s.toList
  match l with
  | '-' :: rest =>
    if rest ≠ [] ∧ rest.all Char.isDigit then
      some (-(((rest.foldl (fun acc c => acc * 10 + (c.toNat - 48)) 0 : Nat) : Int)))
    else none
  | '+' :: rest =>
    if rest ≠ [] ∧ rest.all Char.isDigit then
      some (((rest.foldl (fun acc c => acc * 10 + (c.toNat - 48)) 0 : Nat) : Int))
    else none
  | _ =>
    if l ≠ [] ∧ l.all Char.isDigit then
      some (((l.foldl (fun acc c => acc * 10 + (c.toNat - 48)) 0 : Nat) : Int))
    else none

/-- Lines 50-51: `int(cell.get('colspan', 1) or 1)` on the raw attribute
value (`none` = attribute absent).  `Except.error` models the `ValueError`
escaping `parse_html_table`. -/
def getSpan (attr : Option String) : Except String Int :=
  match attr with
  | none => Except.ok 1
  | some s =>
    if s = "" then Except.ok 1
    else
      match pyInt s with
      | some n => Except.ok n
      | none => Except.error "ValueError"

/-! ## Crawler embedding (`src/incheon_airport_crawler.py`)

### Sentence splitting (`split_sentences`, lines 182-200)

`re.sub(r'(\d+)\.', r'\1@', text)` turns every `.` immediately preceded by a
digit into `@` (the digits are kept by the back-reference, so character-wise
the substitution touches only the dot); `re.split(r'[.!?]+', ...)` splits at
runs of the three terminators, which after the empty-fragment filter is the
same as splitting at each single terminator; `re.sub(r'(\d+)@', r'\1.', s)`
turns every `@` immediately preceded by a digit back into `.`. -/

/-- Protection pass: a `.` whose previous character was a digit becomes `@`.
The Boolean is "the previous character is a digit". -/
def protectFrom : Bool → List Char → List Char
  | _, [] => []
  | pd, c :: rest => (if c = '.' ∧ pd then '@' else c) :: protectFrom c.isDigit rest

/-- Restore pass: an `@` whose previous character was a digit becomes `.`. -/
def restoreFrom : Bool → List Char → List Char
  | _, [] => []
  | pd, c :: rest => (if c = '@' ∧ pd then '.' else c) :: restoreFrom c.isDigit rest

/-- A sentence-terminator character of `re.split(r'[.!?]+', ...)`. -/
def isPunct (c : Char) : Bool := c = '.' || c = '!' || c = '?'

/-- Split a character list at terminator characters (fragments keep no
terminator; empty fragments are produced at adjacent terminators and at the
ends, exactly as `re.split` on single characters does). -/
def splitOnPunct : List Char → List (List Char)
  | [] => [[]]
  | c :: rest =>
    if isPunct c then [] :: splitOnPunct rest
    else
      match splitOnPunct rest with
      | [] => [[c]]
      | f :: fs => (c :: f) :: fs

/-- `split_sentences` (lines 182-200): protect digit-dots, split at
terminators, strip each fragment and drop the empties, restore digit-`@`s,
and return `none` instead of an empty list. -/
def splitSentences (text : String) : Option (List String) :=
  if text = "" then none
  else
    let fragments := splitOnPunct (protectFrom false text.toList)
    let sentences := (fragments.map stripChars).filter (fun s => !s.isEmpty)
    let restored := sentences.map (restoreFrom false)
    if restored = [] then none else some (restored.map List.asString)

/-! Spec-side sentence splitting, for the refinement claim C7. -/

/-- The spec's sentence-boundary rule: `!` and `?` always terminate, and `.`
terminates unless the previous character is a digit. -/
def specBoundary (pd : Bool) (c : Char) : Bool :=
  c = '!' || c = '?' || (c = '.' && !pd)

/-- Fragments of the text cut exactly at the spec's sentence boundaries. -/
def specFragsFrom : Bool → List Char → List (List Char)
  | _, [] => [[]]
  | pd, c :: rest =>
    if specBoundary pd c then [] :: specFragsFrom c.isDigit rest
    else
      match specFragsFrom c.isDigit rest with
      | [] => [[c]]
      | f :: fs => (c :: f) :: fs

/-- Modelled from the spec (§4.2 step 4): split at `.`/`!`/`?` except a `.`
immediately following a digit, strip the fragments, discard the empty ones,
`none` for no sentences.  Used only as the comparison point of the
refinement claim about `split_sentences`. -/
def specSplitSentences (text : String) : Option (List String) :=
  if text = "" then none
  else
    let sentences :=
      ((specFragsFrom false text.toList).map stripChars).filter (fun s => !s.isEmpty)
    if sentences = [] then none else some (sentences.map List.asString)

/-! ### Body structure classification (`parse_body_structure`, lines 102-234)

A `Tag` models one element yielded by `content_node.find_all(['span','p','div'])`:
its stripped text, its `style` attribute, the `style` attributes of its
nested `<span>` descendants, and its raw HTML (`str(tag)`).  A `ContentNode`
models the pieces of the BeautifulSoup node the function reads: the stripped
texts of the `<table>` descendants in document order, the node's full
stripped text, and the candidate tags in document order. -/

structure Tag where
  text : String
  style : String
  childSpanStyles : List String
  rawHtml : String
deriving Repr, DecidableEq

structure ContentNode where
  tableTexts : List String
  fullText : String
  tags : List Tag
deriving Repr, DecidableEq

structure BodyResult where
  header : Option (List String)
  subHeader : Option (List String)
  content : Option (List String)
deriving Repr, DecidableEq

/-- Python's `pat in s` substring test. -/
def containsSub (s pat : String) : Bool := containsSubChars pat.toList s.toList

/-- Lines 146-147: a color declaration in the combined style. -/
def hasColorStyle (combined : String) : Bool :=
  containsSub (lowerStr combined) "color:" || containsSub (lowerStr combined) "color="

/-- Lines 149-154: center alignment in the combined style or raw HTML. -/
def hasCenterAlign (combined rawHtml : String) : Bool :=
  containsSub (lowerStr combined) "text-align: center" ||
  containsSub (lowerStr combined) "text-align:center" ||
  containsSub (lowerStr combined) "text-align: center;" ||
  containsSub (lowerStr rawHtml) "align=\"center\"" ||
  containsSub (lowerStr rawHtml) "align=center"

/-- The classification loop (lines 129-165): walk the candidate tags,
skipping empty or already-processed texts, and accumulate the header and
sub-header texts in document order.  The Python `set`s `header_texts` /
`sub_header_texts` hold the same strings as the two element lists (the
`processed_texts` check makes every classified text unique), so the lists
returned here also model the sets; Python's arbitrary set iteration order is
modelled as insertion order. -/
def classifyTags : List String → List Tag → List String × List String
  | _, [] => ([], [])
  | processed, tag :: rest =>
    if tag.text = "" ∨ processed.contains tag.text then classifyTags processed rest
    else
      let combined := String.intercalate " " (tag.style :: tag.childSpanStyles)
      let color := hasColorStyle combined
      let center := hasCenterAlign combined tag.rawHtml
      if color && center then
        let p := classifyTags (tag.text :: processed) rest
        (tag.text :: p.1, p.2)
      else if center && !color then
        let p := classifyTags (tag.text :: processed) rest
        (p.1, tag.text :: p.2)
      else classifyTags processed rest

/-- Lines 111-115: tables with non-empty stripped text, in document order. -/
def tablePositionsOf (node : ContentNode) : List String :=
  node.tableTexts.filter (fun t => t ≠ "")

/-- Fold `text.replace(pat, "")` over the given patterns (lines 172-176). -/
def removeAllOcc (s : String) (pats : List String) : String :=
  (pats.foldl (fun acc p => removeOcc p.toList acc) s.toList).asString

/-- Lines 171-179: the content text — the full text with every header and
sub-header string removed, whitespace collapsed, then stripped. -/
def contentTextOf (node : ContentNode) : String :=
  let p := classifyTags [] node.tags
  (stripChars (collapseWs (removeAllOcc node.fullText (p.1 ++ p.2)).toList)).asString

/-- The `{table<i>}` placeholder string. -/
def mkPlaceholder (i : Nat) : String := "\x7btable" ++ toString i ++ "\x7d"

/-- Lines 213-218 (`table_count <= content_count` branch): sentence `i`
(0-based) is followed by placeholder `i+1` while `i < n`. -/
def interA : List String → Nat → Nat → List String
  | [], _, _ => []
  | s :: rest, i, n =>
    if i < n then s :: mkPlaceholder (i + 1) :: interA rest (i + 1) n
    else s :: interA rest (i + 1) n

/-- Lines 219-223 (`table_count > content_count` branch, first loop):
every sentence is followed by its placeholder. -/
def interB : List String → Nat → List String
  | [], _ => []
  | s :: rest, i => s :: mkPlaceholder (i + 1) :: interB rest (i + 1)

/-- Lines 206-228: insert the table placeholders into the content sentences. -/
def insertTablePlaceholders (sentences : List String) (tableCount : Nat) : List String :=
  let contentCount := sentences.length
  if tableCount ≤ contentCount then interA sentences 0 tableCount
  else
    interB sentences 0 ++
      (List.range (tableCount - contentCount)).map
        (fun j => mkPlaceholder (contentCount + j + 1))

/-- Modelled from the spec (§4.2 step 5): placeholder `{table<i>}` is placed
after the `i`-th content sentence for `i ∈ [1, min(tableCount, M)]`, and the
placeholders beyond the sentence count are appended at the end with
continuing indices.  Comparison point for claim C1. -/
def specInterleave (sentences : List String) (n : Nat) : List String :=
  (sentences.enum.flatMap
    (fun p => if p.1 < n then [p.2, mkPlaceholder (p.1 + 1)] else [p.2])) ++
  (List.range (n - sentences.length)).map
    (fun j => mkPlaceholder (sentences.length + j + 1))

/-- `parse_body_structure` (lines 102-234). -/
def parseBodyStructure : Option ContentNode → BodyResult
  | none => ⟨none, none, none⟩
  | some node =>
    let p := classifyTags [] node.tags
    let tableCount := (tablePositionsOf node).length
    let headerSentences := splitSentences (String.intercalate " " p.1)
    let subSentences := splitSentences (String.intercalate " " p.2)
    let contentSentences :=
      match splitSentences (contentTextOf node) with
      | none => none
      | some l =>
        if l ≠ [] ∧ tableCount ≠ 0 then some (insertTablePlaceholders l tableCount)
        else some l
    ⟨headerSentences, subSentences, contentSentences⟩

/-! ## Helper lemmas: list indexing -/

theorem getD_set_helper {α : Type} (d : α) : ∀ (l : List α) (i j : Nat) (v : α),
    (l.set i v).getD j d = if i = j ∧ i < l.length then v else l.getD j d := by
  intro l
  induction l with
  | nil => intro i j v; simp
  | cons a l ih =>
    intro i j v
    cases i with
    | zero =>
      cases j with
      | zero => simp
      | succ m => simp
    | succ k =>
      cases j with
      | zero => simp
      | succ m =>
        simp only [List.set, List.getD_cons_succ, ih k m v, List.length_cons]
        congr 1
        simp only [eq_iff_iff]
        constructor
        · rintro ⟨h1, h2⟩; exact ⟨by omega, by omega⟩
        · rintro ⟨h1, h2⟩; exact ⟨by omega, by omega⟩

theorem getD_replicate {α : Type} (d x : α) : ∀ (n j : Nat),
    (List.replicate n x).getD j d = if j < n then x else d := by
  intro n
  induction n with
  | zero => intro j; simp
  | succ k ih =>
    intro j
    cases j with
    | zero => simp [List.replicate]
    | succ m =>
      simp only [List.replicate, List.getD_cons_succ, ih m]
      congr 1
      simp only [eq_iff_iff]
      omega

theorem getD_append_helper {α : Type} (d : α) : ∀ (l : List α) (m : List α) (j : Nat),
    (l ++ m).getD j d = if j < l.length then l.getD j d else m.getD (j - l.length) d := by
  intro l
  induction l with
  | nil => intro m j; simp
  | cons a l ih =>
    intro m j
    cases j with
    | zero => simp
    | succ k =>
      simp only [List.cons_append, List.getD_cons_succ, ih m k, List.length_cons]
      by_cases h : k < l.length
      · rw [if_pos h, if_pos (by omega)]
      · rw [if_neg h, if_neg (by omega)]
        congr 1
        omega

theorem getD_out_of_range {α : Type} (d : α) (l : List α) (j : Nat) (h : l.length ≤ j) :
    l.getD j d = d := by
  rw [List.getD_eq_getElem?_getD, List.getElem?_eq_none (by omega)]
  rfl

/-! ## Helper lemmas: grid placement (table parser) -/

theorem length_ensureRows (g : Grid) (n : Nat) :
    (ensureRows g n).length = max g.length (n + 1) := by
  simp [ensureRows]
  omega

theorem getD_ensureRows (g : Grid) (n r : Nat) :
    (ensureRows g n).getD r [] = g.getD r [] := by
  rw [ensureRows, getD_append_helper]
  by_cases h : r < g.length
  · rw [if_pos h]
  · rw [if_neg h, getD_replicate, getD_out_of_range _ _ _ (by omega)]
    split <;> rfl

theorem getPos_ensureRows (g : Grid) (n r c : Nat) :
    getPos (ensureRows g n) r c = getPos g r c := by
  simp only [getPos]
  rw [getD_ensureRows]

theorem getD_extendRow (row : List String) (n c : Nat) :
    (extendRow row n).getD c "" = row.getD c "" := by
  rw [extendRow, getD_append_helper]
  by_cases h : c < row.length
  · rw [if_pos h]
  · rw [if_neg h, getD_replicate, getD_out_of_range _ _ _ (by omega)]
    split <;> rfl

theorem length_extendRow (row : List String) (n : Nat) :
    (extendRow row n).length = max row.length n := by
  simp [extendRow]
  omega

theorem getPos_set_extendRow (g : Grid) (t n r c : Nat) :
    getPos (g.set t (extendRow (g.getD t []) n)) r c = getPos g r c := by
  simp only [getPos]
  rw [getD_set_helper]
  split
  · next h => rw [h.1, getD_extendRow]
  · rfl

theorem length_fillRange (content : String) :
    ∀ (k : Nat) (row : List String) (start : Nat),
      (fillRange content row start k).length = row.length := by
  intro k
  induction k with
  | zero => intro row start; rfl
  | succ n ih =>
    intro row start
    rw [fillRange, ih]
    split <;> simp

theorem getD_fillRange (content : String) :
    ∀ (k : Nat) (row : List String) (start c : Nat), start + k ≤ row.length →
      (fillRange content row start k).getD c "" =
        if start ≤ c ∧ c < start + k ∧ row.getD c "" = "" then content
        else row.getD c "" := by
  intro k
  induction k with
  | zero =>
    intro row start c _
    rw [fillRange, if_neg (by omega)]
  | succ n ih =>
    intro row start c h
    rw [fillRange]
    set row' := if row.getD start "" = "" then row.set start content else row with hrow'
    have hlen : row'.length = row.length := by
      rw [hrow']; split <;> simp
    rw [ih row' (start + 1) c (by omega)]
    by_cases hc : c = start
    · subst hc
      rw [if_neg (by omega)]
      by_cases he : row.getD c "" = ""
      · have hr2 : row' = row.set c content := by rw [hrow', if_pos he]
        rw [hr2, getD_set_helper, if_pos ⟨rfl, by omega⟩, if_pos ⟨by omega, by omega, he⟩]
      · have hr2 : row' = row := by rw [hrow', if_neg he]
        rw [hr2, if_neg (by tauto)]
    · have hval : row'.getD c "" = row.getD c "" := by
        rw [hrow']; split
        · rw [getD_set_helper, if_neg (by tauto)]
        · rfl
      rw [hval]
      by_cases h1 : start ≤ c ∧ c < start + (n + 1) ∧ row.getD c "" = ""
      · rw [if_pos ⟨by omega, by omega, h1.2.2⟩, if_pos h1]
      · rw [if_neg (by intro hx; exact h1 ⟨by omega, by omega, hx.2.2⟩), if_neg h1]

theorem getPos_placeRowUpdate (g : Grid) (t ci cs : Nat) (content : String) (r c : Nat) :
    getPos (placeRowUpdate g t ci cs content) r c =
      if r = t ∧ ci ≤ c ∧ c < ci + cs ∧ getPos g r c = "" then content
      else getPos g r c := by
  rw [placeRowUpdate]
  have htlen : t < (ensureRows g t).length := by rw [length_ensureRows]; omega
  simp only [getPos]
  rw [getD_set_helper]
  by_cases hr : t = r
  · subst hr
    rw [if_pos ⟨rfl, htlen⟩]
    rw [getD_fillRange _ _ _ _ _ (by rw [length_extendRow]; omega)]
    rw [getD_extendRow, getD_ensureRows]
    by_cases h1 : ci ≤ c ∧ c < ci + cs ∧ (g.getD t []).getD c "" = ""
    · rw [if_pos h1, if_pos ⟨rfl, h1⟩]
    · rw [if_neg h1, if_neg (by tauto)]
  · rw [if_neg (by tauto), getD_ensureRows, if_neg (by tauto)]

theorem getPos_placeRows (ri ci cs : Nat) (content : String) :
    ∀ (n : Nat) (g : Grid) (r c : Nat),
      getPos (placeRows ri ci cs content g n) r c =
        if ri ≤ r ∧ r < ri + n ∧ ci ≤ c ∧ c < ci + cs ∧ getPos g r c = "" then content
        else getPos g r c := by
  intro n
  induction n with
  | zero =>
    intro g r c
    rw [placeRows, if_neg (by omega)]
  | succ m ih =>
    intro g r c
    rw [placeRows, getPos_placeRowUpdate, ih]
    by_cases hmain : getPos g r c = ""
    · by_cases hin : ri ≤ r ∧ r < ri + m ∧ ci ≤ c ∧ c < ci + cs
      · have hI :
            (if ri ≤ r ∧ r < ri + m ∧ ci ≤ c ∧ c < ci + cs ∧ getPos g r c = ""
              then content else getPos g r c) = content :=
          if_pos ⟨hin.1, hin.2.1, hin.2.2.1, hin.2.2.2, hmain⟩
        rw [hI, if_neg (fun hx => absurd hx.1 (by omega)),
          if_pos ⟨hin.1, by omega, hin.2.2.1, hin.2.2.2, hmain⟩]
      · have hI :
            (if ri ≤ r ∧ r < ri + m ∧ ci ≤ c ∧ c < ci + cs ∧ getPos g r c = ""
              then content else getPos g r c) = getPos g r c :=
          if_neg (fun hx => hin ⟨hx.1, hx.2.1, hx.2.2.1, hx.2.2.2.1⟩)
        rw [hI]
        by_cases houter : r = ri + m ∧ ci ≤ c ∧ c < ci + cs
        · rw [if_pos ⟨houter.1, houter.2.1, houter.2.2, hmain⟩,
            if_pos ⟨by omega, by omega, houter.2.1, houter.2.2, hmain⟩]
        · rw [if_neg (fun hx => houter ⟨hx.1, hx.2.1, hx.2.2.1⟩)]
          have h3 : ¬(ri ≤ r ∧ r < ri + (m + 1) ∧ ci ≤ c ∧ c < ci + cs ∧
              getPos g r c = "") := by
            intro hx
            by_cases hq : r < ri + m
            · exact hin ⟨hx.1, hq, hx.2.2.1, hx.2.2.2.1⟩
            · exact houter ⟨by omega, hx.2.2.1, hx.2.2.2.1⟩
          rw [if_neg h3]
    · have hI :
          (if ri ≤ r ∧ r < ri + m ∧ ci ≤ c ∧ c < ci + cs ∧ getPos g r c = ""
            then content else getPos g r c) = getPos g r c :=
        if_neg (fun hx => hmain hx.2.2.2.2)
      rw [hI, if_neg (fun hx => hmain hx.2.2.2), if_neg (fun hx => hmain hx.2.2.2.2)]

theorem getPos_placeCellFull (g : Grid) (ri ci : Nat) (cell : Cell) (r c : Nat) :
    getPos (placeCellFull g ri ci cell) r c =
      if ri ≤ r ∧ r < ri + cell.rowspan ∧ ci ≤ c ∧ c < ci + cell.colspan ∧
          getPos g r c = "" then cell.content
      else getPos g r c := by
  rw [placeCellFull, getPos_placeRows]
  rw [getPos_set_extendRow]

/-! ## Helper lemmas: sentence splitting -/

theorem ws_not_digit (c : Char) (h : c.isWhitespace = true) : c.isDigit = false := by
  simp only [Char.isWhitespace, Bool.or_eq_true, decide_eq_true_eq] at h
  rcases h with ((h1 | h1) | h1) | h1 <;> subst h1 <;> decide

theorem protect_head_isDigit (c : Char) (pd : Bool) :
    (if c = '.' ∧ pd then '@' else c).isDigit = c.isDigit := by
  split
  · next h => rw [h.1]; decide
  · rfl

theorem protect_head_isWhitespace (c : Char) (pd : Bool) :
    (if c = '.' ∧ pd then '@' else c).isWhitespace = c.isWhitespace := by
  split
  · next h => rw [h.1]; decide
  · rfl

theorem protect_head_punct (c : Char) (pd : Bool) :
    isPunct (if c = '.' ∧ pd then '@' else c) = specBoundary pd c := by
  by_cases hcp : c = '.' ∧ pd
  · rw [if_pos hcp, hcp.1]
    have hp : pd = true := hcp.2
    subst hp
    rfl
  · rw [if_neg hcp]
    by_cases hc : c = '.'
    · subst hc
      have hp : pd = false := by
        cases pd
        · rfl
        · exact absurd ⟨rfl, rfl⟩ hcp
      subst hp
      rfl
    · simp [isPunct, specBoundary, hc]

theorem boundary_not_digit (c : Char) (pd : Bool) (h : specBoundary pd c = true) :
    c.isDigit = false := by
  rw [specBoundary] at h
  rcases Bool.or_eq_true_iff.mp h with h1 | h1
  · rcases Bool.or_eq_true_iff.mp h1 with h2 | h2
    · rw [decide_eq_true_iff.mp h2]; rfl
    · rw [decide_eq_true_iff.mp h2]; rfl
  · rw [decide_eq_true_iff.mp (Bool.and_eq_true_iff.mp h1).1]; rfl

theorem protectFrom_eq_nil (pd : Bool) (l : List Char) :
    protectFrom pd l = [] ↔ l = [] := by
  cases l <;> simp [protectFrom]

theorem restore_protect : ∀ (l : List Char) (pd : Bool), '@' ∉ l →
    restoreFrom pd (protectFrom pd l) = l := by
  intro l
  induction l with
  | nil => intro pd _; rfl
  | cons c rest ih =>
    intro pd h
    have hc : c ≠ '@' := fun he => h (he ▸ List.mem_cons_self c rest)
    have hrest : '@' ∉ rest := fun hm => h (List.mem_cons_of_mem c hm)
    rw [protectFrom, restoreFrom, protect_head_isDigit, ih c.isDigit hrest]
    by_cases hcp : c = '.' ∧ pd
    · rw [if_pos hcp]
      rw [if_pos ⟨rfl, hcp.2⟩, hcp.1]
    · rw [if_neg hcp, if_neg (fun hx => hc hx.1)]

theorem dropWhile_protect : ∀ (l : List Char),
    (protectFrom false l).dropWhile Char.isWhitespace =
      protectFrom false (l.dropWhile Char.isWhitespace) := by
  intro l
  induction l with
  | nil => rfl
  | cons c rest ih =>
    have hhead : protectFrom false (c :: rest) = c :: protectFrom c.isDigit rest := by
      rw [protectFrom, if_neg (fun hx => by exact absurd hx.2 (by decide))]
    rw [hhead]
    by_cases hw : c.isWhitespace
    · rw [List.dropWhile_cons_of_pos hw, List.dropWhile_cons_of_pos hw,
        ws_not_digit c hw, ih]
    · rw [List.dropWhile_cons_of_neg hw, List.dropWhile_cons_of_neg hw, hhead]

theorem dropTrailing_protect : ∀ (l : List Char) (pd : Bool),
    dropTrailing (protectFrom pd l) = protectFrom pd (dropTrailing l) := by
  intro l
  induction l with
  | nil => intro pd; rfl
  | cons c rest ih =>
    intro pd
    rw [protectFrom]
    rw [dropTrailing, ih c.isDigit]
    conv_rhs => rw [dropTrailing]
    cases h : dropTrailing rest with
    | nil =>
      show (if (if c = '.' ∧ pd then '@' else c).isWhitespace = true then []
          else [if c = '.' ∧ pd then '@' else c]) =
        protectFrom pd (if c.isWhitespace = true then [] else [c])
      rw [protect_head_isWhitespace]
      by_cases hw : c.isWhitespace = true
      · rw [if_pos hw, if_pos hw]
        rfl
      · rw [if_neg hw, if_neg hw]
        rfl
    | cons a as => rfl

theorem strip_protect (l : List Char) :
    stripChars (protectFrom false l) = protectFrom false (stripChars l) := by
  rw [stripChars, stripChars, dropWhile_protect, dropTrailing_protect]

/-- Proof-internal helper: the fragments of the protected text are the
spec fragments, each protected (the first with the incoming digit flag,
the later ones — which follow a terminator, never a digit — with `false`). -/
def protFrags : Bool → List (List Char) → List (List Char)
  | _, [] => []
  | pd, f :: fs => protectFrom pd f :: fs.map (protectFrom false)

theorem protFrags_false (fs : List (List Char)) :
    protFrags false fs = fs.map (protectFrom false) := by
  cases fs <;> rfl

theorem specFragsFrom_ne_nil (pd : Bool) (l : List Char) :
    specFragsFrom pd l ≠ [] := by
  cases l with
  | nil => exact List.cons_ne_nil _ _
  | cons c rest =>
    rw [specFragsFrom]
    split
    · exact List.cons_ne_nil _ _
    · split
      · exact List.cons_ne_nil _ _
      · exact List.cons_ne_nil _ _

theorem splitOnPunct_protect : ∀ (l : List Char) (pd : Bool),
    splitOnPunct (protectFrom pd l) = protFrags pd (specFragsFrom pd l) := by
  intro l
  induction l with
  | nil => intro pd; rfl
  | cons c rest ih =>
    intro pd
    rw [protectFrom, splitOnPunct, protect_head_punct, ih c.isDigit, specFragsFrom]
    by_cases hb : specBoundary pd c = true
    · rw [if_pos hb, if_pos hb]
      rw [boundary_not_digit c pd hb, protFrags_false]
      cases h : specFragsFrom false rest with
      | nil => exact absurd h (specFragsFrom_ne_nil false rest)
      | cons g gs => rfl
    · rw [if_neg hb, if_neg hb]
      cases h : specFragsFrom c.isDigit rest with
      | nil => exact absurd h (specFragsFrom_ne_nil c.isDigit rest)
      | cons g gs =>
        show ((if c = '.' ∧ pd then '@' else c) :: protectFrom c.isDigit g) ::
            gs.map (protectFrom false) =
          protFrags pd ((c :: g) :: gs)
        rfl

theorem mem_dropWhile_imp {α : Type} (p : α → Bool) :
    ∀ (l : List α) (x : α), x ∈ l.dropWhile p → x ∈ l := by
  intro l
  induction l with
  | nil => intro x hx; exact hx
  | cons c rest ih =>
    intro x hx
    by_cases hp : p c
    · rw [List.dropWhile_cons_of_pos hp] at hx
      exact List.mem_cons_of_mem c (ih x hx)
    · rwa [List.dropWhile_cons_of_neg hp] at hx

theorem mem_dropTrailing_imp : ∀ (l : List Char) (x : Char),
    x ∈ dropTrailing l → x ∈ l := by
  intro l
  induction l with
  | nil => intro x hx; exact hx
  | cons c rest ih =>
    intro x hx
    rw [dropTrailing] at hx
    rcases h : dropTrailing rest with _ | ⟨a, as⟩
    · rw [h] at hx
      by_cases hw : c.isWhitespace = true
      · rw [if_pos hw] at hx
        exact absurd hx (List.not_mem_nil x)
      · rw [if_neg hw] at hx
        rcases List.mem_singleton.mp hx with rfl
        exact List.mem_cons_self _ _
    · rw [h] at hx
      rcases List.mem_cons.mp hx with rfl | hm
      · exact List.mem_cons_self _ _
      · exact List.mem_cons_of_mem c (ih x (h ▸ hm))

theorem mem_stripChars_imp (l : List Char) (x : Char) (hx : x ∈ stripChars l) :
    x ∈ l :=
  mem_dropWhile_imp _ l x (mem_dropTrailing_imp _ x hx)

theorem mem_specFrags_imp : ∀ (l : List Char) (pd : Bool) (f : List Char),
    f ∈ specFragsFrom pd l → ∀ x ∈ f, x ∈ l := by
  intro l
  induction l with
  | nil =>
    intro pd f hf x hx
    rcases List.mem_singleton.mp hf with rfl
    exact absurd hx (List.not_mem_nil x)
  | cons c rest ih =>
    intro pd f hf x hx
    rw [specFragsFrom] at hf
    by_cases hb : specBoundary pd c = true
    · rw [if_pos hb] at hf
      rcases List.mem_cons.mp hf with rfl | hm
      · exact absurd hx (List.not_mem_nil x)
      · exact List.mem_cons_of_mem c (ih c.isDigit f hm x hx)
    · rw [if_neg hb] at hf
      rcases h : specFragsFrom c.isDigit rest with _ | ⟨g, gs⟩
      · exact absurd h (specFragsFrom_ne_nil c.isDigit rest)
      · rw [h] at hf
        rcases List.mem_cons.mp hf with rfl | hm
        · rcases List.mem_cons.mp hx with rfl | hg
          · exact List.mem_cons_self _ _
          · exact List.mem_cons_of_mem c
              (ih c.isDigit g (h ▸ List.mem_cons_self g gs) x hg)
        · exact List.mem_cons_of_mem c
            (ih c.isDigit f (h ▸ List.mem_cons_of_mem g hm) x hx)

theorem protect_isEmpty (pd : Bool) (f : List Char) :
    (protectFrom pd f).isEmpty = f.isEmpty := by
  cases f <;> rfl

/-- With no `@` in the input, `split_sentences` computes exactly the spec's
digit-safe sentence split: the protect / restore round-trip is the identity
on every produced sentence. -/
theorem splitSentences_eq_spec (t : String) (h : '@' ∉ t.toList) :
    splitSentences t = specSplitSentences t := by
  simp only [splitSentences, specSplitSentences]
  by_cases h0 : t = ""
  · rw [if_pos h0, if_pos h0]
  · rw [if_neg h0, if_neg h0]
    have key : ((splitOnPunct (protectFrom false t.toList)).map stripChars).filter
          (fun s => !s.isEmpty) =
        (((specFragsFrom false t.toList).map stripChars).filter
          (fun s => !s.isEmpty)).map (protectFrom false) := by
      rw [splitOnPunct_protect, protFrags_false, List.map_map]
      have hcomp : ∀ f ∈ specFragsFrom false t.toList,
          (stripChars ∘ protectFrom false) f = (protectFrom false ∘ stripChars) f :=
        fun f _ => strip_protect f
      rw [List.map_congr_left hcomp]
      have hsplit : (specFragsFrom false t.toList).map (protectFrom false ∘ stripChars) =
          ((specFragsFrom false t.toList).map stripChars).map (protectFrom false) := by
        rw [List.map_map]
      rw [hsplit, List.filter_map]
      congr 1
      apply List.filter_congr
      intro f _
      show (!(protectFrom false f).isEmpty) = (!f.isEmpty)
      rw [protect_isEmpty]
    rw [key]
    set specSent := (((specFragsFrom false t.toList).map stripChars).filter
      (fun s => !s.isEmpty)) with hspec
    have hrest : (specSent.map (protectFrom false)).map (restoreFrom false) = specSent := by
      rw [List.map_map]
      have hid : ∀ f ∈ specSent, (restoreFrom false ∘ protectFrom false) f = id f := by
        intro f hf
        have hf2 : '@' ∉ f := by
          intro hmem
          rcases List.mem_filter.mp (hspec ▸ hf) with ⟨hmap, _⟩
          rcases List.mem_map.mp hmap with ⟨g, hg, rfl⟩
          exact h (mem_specFrags_imp t.toList false g hg '@' (mem_stripChars_imp g '@' hmem))
        exact restore_protect f false hf2
      rw [List.map_congr_left hid, List.map_id]
    rw [hrest]

/-! ## Helper lemmas: restore never leaves a digit-`@` pair -/

/-- No character of the list is an `@` directly preceded by a digit (the
Boolean seed is whether the virtual previous character is a digit). -/
def noDigitAmpFrom : Bool → List Char → Bool
  | _, [] => true
  | pd, c :: rest => (!(pd && c = '@')) && noDigitAmpFrom c.isDigit rest

theorem restore_head_isDigit (c : Char) (pd : Bool) :
    (if c = '@' ∧ pd then '.' else c).isDigit = c.isDigit := by
  split
  · next h => rw [h.1]; decide
  · rfl

theorem restore_no_digit_amp : ∀ (l : List Char) (pd : Bool),
    noDigitAmpFrom pd (restoreFrom pd l) = true := by
  intro l
  induction l with
  | nil => intro pd; rfl
  | cons c rest ih =>
    intro pd
    rw [restoreFrom, noDigitAmpFrom, restore_head_isDigit, ih c.isDigit]
    rw [Bool.and_true]
    by_cases hcp : c = '@' ∧ pd
    · rw [if_pos hcp]
      simp
    · rw [if_neg hcp]
      cases pd
      · simp
      · simp only [Bool.true_and, Bool.not_eq_eq_eq_not, Bool.not_true,
          decide_eq_false_iff_not]
        intro hc
        exact hcp ⟨hc, rfl⟩

/-- Shape of a successful `split_sentences` call: the result is non-empty
and each sentence is the restore pass applied to a stripped fragment. -/
theorem splitSentences_prop (t : String) (l : List String)
    (h : splitSentences t = some l) :
    l ≠ [] ∧ ∀ s ∈ l, noDigitAmpFrom false s.toList = true := by
  simp only [splitSentences] at h
  by_cases h0 : t = ""
  · rw [if_pos h0] at h
    cases h
  · rw [if_neg h0] at h
    set restored := (((splitOnPunct (protectFrom false t.toList)).map stripChars).filter
      (fun s => !s.isEmpty)).map (restoreFrom false) with hres
    by_cases he : restored = []
    · rw [if_pos he] at h
      cases h
    · rw [if_neg he] at h
      injection h with h
      subst h
      constructor
      · intro hx
        exact he (List.map_eq_nil_iff.mp hx)
      · intro s hs
        rcases List.mem_map.mp hs with ⟨f, hf, rfl⟩
        rcases List.mem_map.mp (hres ▸ hf) with ⟨g, _, rfl⟩
        exact restore_no_digit_amp g false

/-! ## Helper lemmas: placeholder interleaving -/

theorem interA_eq_enumFrom : ∀ (s : List String) (i n : Nat),
    interA s i n = (List.enumFrom i s).flatMap
      (fun p => if p.1 < n then [p.2, mkPlaceholder (p.1 + 1)] else [p.2]) := by
  intro s
  induction s with
  | nil => intro i n; rfl
  | cons x rest ih =>
    intro i n
    rw [interA, List.enumFrom_cons, List.flatMap_cons, ih (i + 1) n]
    by_cases hi : i < n
    · rw [if_pos hi, if_pos hi]
      rfl
    · rw [if_neg hi, if_neg hi]
      rfl

theorem interB_eq_interA : ∀ (s : List String) (i n : Nat), i + s.length ≤ n →
    interB s i = interA s i n := by
  intro s
  induction s with
  | nil => intro i n _; rfl
  | cons x rest ih =>
    intro i n h
    rw [interB, interA, if_pos (by simp at h; omega), ih (i + 1) n (by simp at h; omega)]

theorem interA_zero : ∀ (s : List String) (i : Nat), interA s i 0 = s := by
  intro s
  induction s with
  | nil => intro i; rfl
  | cons x rest ih =>
    intro i
    rw [interA, if_neg (by omega), ih]

theorem length_interA : ∀ (s : List String) (i n : Nat),
    (interA s i n).length = s.length + (min n (i + s.length) - i) := by
  intro s
  induction s with
  | nil => intro i n; simp only [interA, List.length_nil]; omega
  | cons x rest ih =>
    intro i n
    by_cases hi : i < n
    · rw [interA, if_pos hi]
      simp only [List.length_cons, ih (i + 1) n]
      omega
    · rw [interA, if_neg hi]
      simp only [List.length_cons, ih (i + 1) n]
      omega

theorem length_interB : ∀ (s : List String) (i : Nat),
    (interB s i).length = 2 * s.length := by
  intro s
  induction s with
  | nil => intro i; rfl
  | cons x rest ih =>
    intro i
    rw [interB]
    simp only [List.length_cons, ih (i + 1)]
    omega

/-- The two insertion branches of the source agree with the spec's single
interleaving rule. -/
theorem insert_eq_specInterleave (s : List String) (n : Nat) :
    insertTablePlaceholders s n = specInterleave s n := by
  rw [insertTablePlaceholders, specInterleave]
  by_cases hc : n ≤ s.length
  · rw [if_pos hc]
    have h0 : n - s.length = 0 := by omega
    rw [h0, List.range_zero, List.map_nil, List.append_nil, interA_eq_enumFrom]
    rfl
  · rw [if_neg hc, interB_eq_interA s 0 n (by omega), interA_eq_enumFrom]
    rfl

theorem length_insertTablePlaceholders (s : List String) (n : Nat) :
    (insertTablePlaceholders s n).length = s.length + n := by
  rw [insertTablePlaceholders]
  by_cases hc : n ≤ s.length
  · rw [if_pos hc, length_interA]
    omega
  · rw [if_neg hc]
    simp only [List.length_append, List.length_map, List.length_range, length_interB]
    omega

/-! ## Helper lemmas: body structure classification -/

theorem parseBody_header_eq (node : ContentNode) :
    (parseBodyStructure (some node)).header =
      splitSentences (String.intercalate " " (classifyTags [] node.tags).1) := rfl

theorem parseBody_subHeader_eq (node : ContentNode) :
    (parseBodyStructure (some node)).subHeader =
      splitSentences (String.intercalate " " (classifyTags [] node.tags).2) := rfl

theorem insert_zero_eq (s : List String) : insertTablePlaceholders s 0 = s := by
  rw [insertTablePlaceholders, if_pos (Nat.zero_le _), interA_zero]

/-- Characterization of the content track: a non-null content is the
sentence split of the content text with the placeholders inserted. -/
theorem parseBody_content_eq (node : ContentNode) (l : List String)
    (h : (parseBodyStructure (some node)).content = some l) :
    ∃ s, splitSentences (contentTextOf node) = some s ∧ s ≠ [] ∧
      l = insertTablePlaceholders s ((tablePositionsOf node).length) := by
  simp only [parseBodyStructure] at h
  cases hs : splitSentences (contentTextOf node) with
  | none => rw [hs] at h; simp at h
  | some s =>
    rw [hs] at h
    have h2 : (if s ≠ [] ∧ (tablePositionsOf node).length ≠ 0 then
        some (insertTablePlaceholders s ((tablePositionsOf node).length))
      else some s) = some l := h
    have hne : s ≠ [] := (splitSentences_prop _ _ hs).1
    by_cases hcond : s ≠ [] ∧ (tablePositionsOf node).length ≠ 0
    · rw [if_pos hcond] at h2
      injection h2 with h2
      exact ⟨s, rfl, hne, h2.symm⟩
    · rw [if_neg hcond] at h2
      injection h2 with h2
      have hn0 : (tablePositionsOf node).length = 0 := by
        by_contra hn
        exact hcond ⟨hne, hn⟩
      refine ⟨s, rfl, hne, ?_⟩
      rw [hn0, insert_zero_eq, h2]

/-! ## Helper lemmas: parse_html_table with a thead -/

theorem tail_of_short (l : Grid) (h : ¬l.length > 1) : l.tail = [] := by
  cases l with
  | nil => rfl
  | cons a as =>
    cases as with
    | nil => rfl
    | cons b bs => simp at h

theorem parse_html_table_thead (t : HtmlTable) (trs : List (List Cell))
    (h : t.thead = some trs) :
    parse_html_table t =
      ((normalize_rows trs).headD [],
        (normalize_rows trs).tail ++ normalize_rows t.bodyTrs) := by
  obtain ⟨th, body⟩ := t
  simp only at h
  subst h
  simp only [parse_html_table]
  by_cases hl : (normalize_rows trs).length > 1
  · rw [if_pos hl]
  · rw [if_neg hl, tail_of_short _ hl]

/-! ## Claim theorems -/

/-- C2 (counterexample): the colspan/rowspan attribute parsing of
`parse_html_table` (lines 50-51) does NOT clamp malformed values to 1 and is
not error-free: a non-numeric attribute value raises `ValueError`, and a `0`
attribute value is kept as `0`, not clamped to `1`. -/
theorem c2_counterexample :
    getSpan (some "abc") = Except.error "ValueError" ∧
    getSpan (some "0") = Except.ok 0 ∧
    getSpan (some "0") ≠ Except.ok 1 ∧
    getSpan (some "-2") ≠ Except.ok 1 := by
  refine ⟨rfl, rfl, ?_, ?_⟩
  · intro h
    injection h with h2
    exact absurd h2 (by decide)
  · intro h
    injection h with h2
    exact absurd h2 (by decide)

/-- C2 (amended): an absent `colspan`/`rowspan` attribute, or one with an
empty value, defaults to 1; a numeric value is used exactly as parsed with
no clamping (0 stays 0, negative stays negative); a non-numeric value raises
`ValueError` instead of defaulting. -/
theorem c2_amended_span_parsing :
    getSpan none = Except.ok 1 ∧
    getSpan (some "") = Except.ok 1 ∧
    getSpan (some "2") = Except.ok 2 ∧
    getSpan (some "0") = Except.ok 0 ∧
    getSpan (some "-2") = Except.ok (-2) ∧
    getSpan (some "abc") = Except.error "ValueError" :=
  ⟨rfl, rfl, rfl, rfl, rfl, rfl⟩

/-- C3: placing a cell with `rowSpan = r`, `colSpan = c` at grid position
`(ri, ci)` writes the cell's content into every position of the `r × c`
rectangle that is still unfilled (reads as `""`), and leaves every
already-filled position in the rectangle untouched — first-written content
wins. -/
theorem c3_merged_cell_first_write_wins (g : Grid) (ri ci : Nat) (cell : Cell)
    (i j : Nat) (hi : i < cell.rowspan) (hj : j < cell.colspan) :
    getPos (placeCellFull g ri ci cell) (ri + i) (ci + j) =
      (if getPos g (ri + i) (ci + j) = "" then cell.content
       else getPos g (ri + i) (ci + j)) := by
  rw [getPos_placeCellFull]
  by_cases h : getPos g (ri + i) (ci + j) = ""
  · rw [if_pos ⟨by omega, by omega, by omega, by omega, h⟩, if_pos h]
  · rw [if_neg (fun hx => h hx.2.2.2.2), if_neg h]

theorem c3_witness :
    getPos (placeCellFull [["x", ""]] 0 0 ⟨"z", 2, 1⟩) 0 1 = "z" ∧
    getPos (placeCellFull [["x", ""]] 0 0 ⟨"z", 2, 1⟩) 0 0 = "x" := by
  constructor
  · have h := c3_merged_cell_first_write_wins [["x", ""]] 0 0 ⟨"z", 2, 1⟩ 0 1
      (by decide) (by decide)
    exact h.trans (by decide)
  · have h := c3_merged_cell_first_write_wins [["x", ""]] 0 0 ⟨"z", 2, 1⟩ 0 0
      (by decide) (by decide)
    exact h.trans (by decide)

/-- C4: when the `<thead>` has more than one row, only the first normalized
header row is returned as header, and the remaining normalized header rows
are prepended in front of the normalized body rows; on the §8 scenario table
this yields exactly the header and three rows the claim lists. -/
theorem c4_multi_header_rows (t : HtmlTable) (trs : List (List Cell))
    (h : t.thead = some trs) :
    (parse_html_table t).1 = (normalize_rows trs).headD [] ∧
    (parse_html_table t).2 = (normalize_rows trs).tail ++ normalize_rows t.bodyTrs ∧
    parse_html_table
      ⟨some [[⟨"고정열", 1, 2⟩, ⟨"그룹A", 2, 1⟩, ⟨"그룹B", 2, 1⟩],
          [⟨"컬럼A1", 1, 1⟩, ⟨"컬럼A2", 1, 1⟩, ⟨"컬럼B1", 1, 1⟩, ⟨"컬럼B2", 1, 1⟩]],
        [[⟨"행1-고정", 1, 1⟩, ⟨"행1-A1", 1, 1⟩, ⟨"행1-A2", 1, 1⟩, ⟨"행1-B1", 1, 1⟩,
            ⟨"행1-B2", 1, 1⟩],
          [⟨"행2-고정", 1, 1⟩, ⟨"행2-A1", 1, 1⟩, ⟨"행2-A2", 1, 1⟩, ⟨"행2-B1", 1, 1⟩,
            ⟨"행2-B2", 1, 1⟩]]⟩ =
      (["고정열", "그룹A", "그룹A", "그룹B", "그룹B"],
        [["고정열", "컬럼A1", "컬럼A2", "컬럼B1", "컬럼B2"],
          ["행1-고정", "행1-A1", "행1-A2", "행1-B1", "행1-B2"],
          ["행2-고정", "행2-A1", "행2-A2", "행2-B1", "행2-B2"]]) := by
  refine ⟨?_, ?_, by decide⟩
  · rw [parse_html_table_thead t trs h]
  · rw [parse_html_table_thead t trs h]

theorem c4_witness :
    (parse_html_table ⟨some [[⟨"a", 1, 1⟩], [⟨"b", 1, 1⟩]], [[⟨"c", 1, 1⟩]]⟩).1 =
      ["a"] ∧
    (parse_html_table ⟨some [[⟨"a", 1, 1⟩], [⟨"b", 1, 1⟩]], [[⟨"c", 1, 1⟩]]⟩).2 =
      [["b"], ["c"]] := by
  have h := c4_multi_header_rows ⟨some [[⟨"a", 1, 1⟩], [⟨"b", 1, 1⟩]], [[⟨"c", 1, 1⟩]]⟩
    [[⟨"a", 1, 1⟩], [⟨"b", 1, 1⟩]] rfl
  exact ⟨h.1.trans (by decide), h.2.1.trans (by decide)⟩

/-- C5: the tbody-only merge scenario — a `rowspan=2 colspan=2` cell `공통`
under a plain four-column header — normalizes to the two four-column rows
the claim lists, the second row's cells shifted past the reserved columns. -/
theorem c5_tbody_rowspan_colspan_scenario :
    parse_html_table
      ⟨some [[⟨"c1", 1, 1⟩, ⟨"c2", 1, 1⟩, ⟨"c3", 1, 1⟩, ⟨"c4", 1, 1⟩]],
        [[⟨"공통", 2, 2⟩, ⟨"r1c3", 1, 1⟩, ⟨"r1c4", 1, 1⟩],
          [⟨"r2c3", 1, 1⟩, ⟨"r2c4", 1, 1⟩]]⟩ =
      (["c1", "c2", "c3", "c4"],
        [["공통", "공통", "r1c3", "r1c4"], ["공통", "공통", "r2c3", "r2c4"]]) := by
  decide

/-- C6 (counterexample): the grid returned by normalization is NOT always
rectangular — a table whose second row has fewer cells than the first yields
rows of different lengths (nothing pads short rows to the table width). -/
theorem c6_counterexample :
    parse_html_table ⟨none, [[⟨"a", 1, 1⟩, ⟨"b", 1, 1⟩], [⟨"c", 1, 1⟩]]⟩ =
      (["a", "b"], [["c"]]) ∧
    isRect (parse_html_table ⟨none, [[⟨"a", 1, 1⟩, ⟨"b", 1, 1⟩], [⟨"c", 1, 1⟩]]⟩) =
      false := by
  decide

/-- C6 (amended): rows are extended with empty strings during construction
only as far as needed to place their cells, and are never padded to a common
width afterwards, so the grid need not be rectangular: for ANY cell contents,
a two-cell first row followed by a one-cell second row normalizes to rows of
lengths 2 and 1. -/
theorem c6_amended_rows_not_padded (s1 s2 s3 : String) :
    normalize_rows [[⟨s1, 1, 1⟩, ⟨s2, 1, 1⟩], [⟨s3, 1, 1⟩]] = [[s1, s2], [s3]] ∧
    ((normalize_rows [[⟨s1, 1, 1⟩, ⟨s2, 1, 1⟩], [⟨s3, 1, 1⟩]]).map List.length) =
      [2, 1] := by
  have h : normalize_rows [[⟨s1, 1, 1⟩, ⟨s2, 1, 1⟩], [⟨s3, 1, 1⟩]] = [[s1, s2], [s3]] := by
    simp [normalize_rows, normRowsAux, placeCells, placeCellFull, placeRows,
      placeRowUpdate, fillRange, nextFreeCol, nextFreeColAux, ensureRows, extendRow]
  exact ⟨h, by rw [h]; rfl⟩

/-- C9: the first-write-wins protection only protects non-empty content —
placing a cell whose extracted content is the empty string changes no grid
position at all (its spanned positions still read as unfilled), so the cells
of the next row claim the columns an empty rowspan-2 cell spanned instead of
being shifted past them. -/
theorem c9_empty_content_unfilled (g : Grid) (ri ci : Nat) (cell : Cell)
    (hc : cell.content = "") (r c : Nat) :
    getPos (placeCellFull g ri ci cell) r c = getPos g r c ∧
    normalize_rows [[⟨"", 1, 2⟩, ⟨"b", 1, 1⟩], [⟨"x", 1, 1⟩]] =
      [["", "b"], ["x"]] := by
  constructor
  · rw [getPos_placeCellFull]
    split
    · next h => rw [hc, h.2.2.2.2]
    · rfl
  · decide

theorem c9_witness :
    getPos (placeCellFull [[]] 0 0 ⟨"", 1, 2⟩) 1 0 = "" ∧
    normalize_rows [[⟨"", 1, 2⟩, ⟨"b", 1, 1⟩], [⟨"x", 1, 1⟩]] =
      [["", "b"], ["x"]] := by
  have h := c9_empty_content_unfilled [[]] 0 0 ⟨"", 1, 2⟩ rfl 1 0
  exact ⟨h.1.trans (by decide), h.2⟩

/-- C1 (counterexample): the placeholder count does not always equal the
number of detected tables.  On a node whose entire text is classified as
sub-header (a centered `<div>` wrapping the table), the content track comes
back null, so zero placeholders are emitted although one table was
detected — fewer placeholders than detected tables. -/
theorem c1_counterexample :
    (parseBodyStructure
        (some ⟨["T"], "T", [⟨"T", "text-align:center", [], "x"⟩]⟩)).content =
      none ∧
    (tablePositionsOf ⟨["T"], "T", [⟨"T", "text-align:center", [], "x"⟩]⟩).length =
      1 := by
  decide

/-- C1 (amended): whenever the classifier returns a non-null content track,
it is exactly the content sentences interleaved with the table placeholders
per the spec rule — `\x7btable<i>\x7d` after the i-th sentence for
`i ≤ min(tableCount, sentenceCount)`, remaining placeholders appended with
continuing indices — and its length is the sentence count plus the detected
table count (so exactly tableCount placeholders are emitted).  When the
content track is null, no placeholders are emitted even if tables were
detected. -/
theorem c1_amended_placeholder_interleaving (node : ContentNode) (l : List String)
    (h : (parseBodyStructure (some node)).content = some l) :
    ∃ s, splitSentences (contentTextOf node) = some s ∧
      l = specInterleave s ((tablePositionsOf node).length) ∧
      l.length = s.length + (tablePositionsOf node).length := by
  rcases parseBody_content_eq node l h with ⟨s, hs, _, hl⟩
  refine ⟨s, hs, ?_, ?_⟩
  · rw [hl, insert_eq_specInterleave]
  · rw [hl, length_insertTablePlaceholders]

theorem c1_witness :
    (parseBodyStructure (some ⟨["T"], "하나. 둘 T",
        [⟨"H", "color:red;text-align:center", [], "x"⟩]⟩)).content =
      some ["하나", "\x7btable1\x7d", "둘 T"] ∧
    (∃ s, splitSentences (contentTextOf ⟨["T"], "하나. 둘 T",
          [⟨"H", "color:red;text-align:center", [], "x"⟩]⟩) = some s ∧
      ["하나", "\x7btable1\x7d", "둘 T"] = specInterleave s
        ((tablePositionsOf ⟨["T"], "하나. 둘 T",
          [⟨"H", "color:red;text-align:center", [], "x"⟩]⟩).length) ∧
      (["하나", "\x7btable1\x7d", "둘 T"] : List String).length = s.length +
        ((tablePositionsOf ⟨["T"], "하나. 둘 T",
          [⟨"H", "color:red;text-align:center", [], "x"⟩]⟩).length)) :=
  ⟨by decide, c1_amended_placeholder_interleaving _ _ (by decide)⟩

/-- C7: sentence splitting never ends a sentence at a `.` directly preceded
by a digit, while `.`, `!`, `?` elsewhere do end sentences: on any input
without a literal `@`, `split_sentences` equals the spec's digit-safe
splitter exactly, and the date example comes back as one single sentence. -/
theorem c7_digit_dot_protection (t : String) (h : '@' ∉ t.toList) :
    splitSentences t = specSplitSentences t ∧
    splitSentences "발표일 2023.12.31 종료" = some ["발표일 2023.12.31 종료"] :=
  ⟨splitSentences_eq_spec t h, by decide⟩

theorem c7_witness :
    ('@' ∉ "발표일 2023.12.31 종료".toList) ∧
    splitSentences "발표일 2023.12.31 종료" =
      specSplitSentences "발표일 2023.12.31 종료" :=
  ⟨by decide, (c7_digit_dot_protection "발표일 2023.12.31 종료" (by decide)).1⟩

/-- C8: a `None` content node yields all three tracks null (and no
exception — the function is total); a track whose accumulated source string
is empty comes back null; and no track is ever an empty sequence: a
returned sentence list is non-empty. -/
theorem c8_null_semantics (node : ContentNode) (t : String) (l : List String) :
    parseBodyStructure none = ⟨none, none, none⟩ ∧
    splitSentences "" = none ∧
    (splitSentences t = some l → l ≠ []) ∧
    (String.intercalate " " (classifyTags [] node.tags).1 = "" →
      (parseBodyStructure (some node)).header = none) ∧
    (parseBodyStructure (some node)).header ≠ some [] ∧
    (parseBodyStructure (some node)).subHeader ≠ some [] ∧
    (parseBodyStructure (some node)).content ≠ some [] := by
  refine ⟨rfl, rfl, fun h => (splitSentences_prop t l h).1, ?_, ?_, ?_, ?_⟩
  · intro he
    rw [parseBody_header_eq, he]
    rfl
  · rw [parseBody_header_eq]
    intro h
    exact (splitSentences_prop _ _ h).1 rfl
  · rw [parseBody_subHeader_eq]
    intro h
    exact (splitSentences_prop _ _ h).1 rfl
  · intro h
    rcases parseBody_content_eq node [] h with ⟨s, _, hne, hl⟩
    have := length_insertTablePlaceholders s ((tablePositionsOf node).length)
    rw [← hl, List.length_nil] at this
    have hs0 : s.length = 0 := by omega
    exact hne (List.length_eq_zero.mp hs0)

theorem c8_witness :
    parseBodyStructure none = ⟨none, none, none⟩ ∧
    (parseBodyStructure (some ⟨[], "", []⟩)).header = none ∧
    (["a"] : List String) ≠ [] :=
  ⟨(c8_null_semantics ⟨[], "", []⟩ "a" ["a"]).1,
    (c8_null_semantics ⟨[], "", []⟩ "a" ["a"]).2.2.2.1 (by decide),
    (c8_null_semantics ⟨[], "", []⟩ "a" ["a"]).2.2.1 (by decide)⟩

/-- C10: the restore pass runs unconditionally, so no sentence returned by
`split_sentences` ever contains an `@` directly preceded by a digit — an
`@` that was already in the input is rewritten to `.` when a digit precedes
it, as `"user123@mail"` becoming `"user123.mail"` shows. -/
theorem c10_at_sign_restoration (t : String) (l : List String)
    (h : splitSentences t = some l) :
    (∀ s ∈ l, noDigitAmpFrom false s.toList = true) ∧
    splitSentences "user123@mail" = some ["user123.mail"] :=
  ⟨(splitSentences_prop t l h).2, by decide⟩

theorem c10_witness :
    splitSentences "user123@mail" = some ["user123.mail"] ∧
    (∀ s ∈ (["user123.mail"] : List String), noDigitAmpFrom false s.toList = true) :=
  ⟨by decide,
    (c10_at_sign_restoration "user123@mail" ["user123.mail"] (by decide)).1⟩
